import Mathlib

/-!
Verification of the conversation session manager and formatting helpers of a
Discord chat bot, shallowly embedded from `src/anthropic_api.py` and
`src/util.py`.  Python strings are modelled as lists of characters, byte
payloads as lists of naturals below 256, and the per-process session table as
an association list in insertion order (Python dicts preserve insertion
order).
-/

namespace DiscordClaude

/-- Python `str` values are modelled as lists of characters, so the slice
`s[i:j]` becomes `take`/`drop`. -/
abbrev Text := List Char

abbrev UserId := Nat
abbrev ChannelId := Nat
abbrev ConvId := Nat

/-- Constant `CHUNK_TEXT_SIZE = 3500` from `util.py`. -/
def CHUNK_TEXT_SIZE : Nat := 3500

/-- Embedding of `chunk_text` from `util.py`, the comprehension
`[text[i : i + chunk_size] for i in range(0, len(text), chunk_size)]`:
`range(0, len(text), chunk_size)` is the arithmetic progression
`0, chunk_size, 2 * chunk_size, ...` with `ceil(len / chunk_size)` elements,
and `text[i : i + chunk_size]` is `(text.drop i).take chunk_size`. -/
def chunk_text (text : Text) (chunk_size : Nat) : List Text :=
  (List.range' 0 ((text.length + chunk_size - 1) / chunk_size) chunk_size).map
    fun i => (text.drop i).take chunk_size

theorem chunk_text_nil (n : Nat) : chunk_text [] n = [] := by
  unfold chunk_text
  rcases n with _ | m
  · simp
  · simp [Nat.div_eq_of_lt (Nat.lt_succ_self m)]

theorem chunk_slice_shift (n : Nat) :
    ∀ (k : Nat) (t : Text) (s : Nat),
      ((List.range' s k n).map fun i => (t.drop i).take n)
        = (List.range' 0 k n).map fun i => ((t.drop s).drop i).take n
  | 0, t, s => by simp
  | k + 1, t, s => by
    rw [List.range'_succ, List.range'_succ]
    simp only [List.map_cons, List.drop_zero]
    congr 1
    rw [chunk_slice_shift n k t (s + n), chunk_slice_shift n k (t.drop s) (0 + n)]
    have hd : (t.drop s).drop (0 + n) = t.drop (s + n) := by
      rw [List.drop_drop]
      congr 1
      omega
    rw [hd]

theorem chunk_text_cons (n : Nat) (hn : 0 < n) (t : Text) (ht : t ≠ []) :
    chunk_text t n = t.take n :: chunk_text (t.drop n) n := by
  have hlen : 0 < t.length := List.length_pos.mpr ht
  have hk : (t.length + n - 1) / n = ((t.drop n).length + n - 1) / n + 1 := by
    rw [List.length_drop]
    rcases Nat.lt_or_ge t.length n with h | h
    · have h0 : t.length - n = 0 := by omega
      have h1 : t.length + n - 1 = (t.length - 1) + n := by omega
      rw [h0, h1, Nat.add_div_right _ hn,
        Nat.div_eq_of_lt (show t.length - 1 < n by omega),
        Nat.div_eq_of_lt (show 0 + n - 1 < n by omega)]
    · have h1 : t.length + n - 1 = (t.length - n + n - 1) + n := by omega
      rw [h1, Nat.add_div_right _ hn]
  rw [chunk_text, chunk_text, hk, List.range'_succ]
  simp only [List.map_cons, List.drop_zero, Nat.zero_add]
  congr 1
  rw [chunk_slice_shift n _ t n]

theorem chunk_text_flatten (n : Nat) (hn : 0 < n) (t : Text) :
    (chunk_text t n).flatten = t := by
  by_cases ht : t = []
  · subst ht
    simp [chunk_text_nil]
  · have hlen : 0 < t.length := List.length_pos.mpr ht
    rw [chunk_text_cons n hn t ht, List.flatten_cons,
      chunk_text_flatten n hn (t.drop n)]
    exact List.take_append_drop n t
termination_by t.length
decreasing_by
  simp only [List.length_drop]
  omega

theorem chunk_text_mem_length (n : Nat) (hn : 0 < n) (t : Text) :
    ∀ c ∈ chunk_text t n, c.length ≤ n ∧ c ≠ [] := by
  by_cases ht : t = []
  · subst ht
    simp [chunk_text_nil]
  · have hlen : 0 < t.length := List.length_pos.mpr ht
    rw [chunk_text_cons n hn t ht]
    intro c hc
    rcases List.mem_cons.mp hc with rfl | h
    · constructor
      · simp
      · have : 0 < (t.take n).length := by
          simp only [List.length_take]
          omega
        exact List.ne_nil_of_length_pos this
    · exact chunk_text_mem_length n hn (t.drop n) c h
termination_by t.length
decreasing_by
  simp only [List.length_drop]
  omega

theorem chunk_text_full (n : Nat) (hn : 0 < n) (t : Text) :
    ∀ i, i + 1 < (chunk_text t n).length →
      ((chunk_text t n).getD i []).length = n := by
  by_cases ht : t = []
  · subst ht
    intro i hi
    rw [chunk_text_nil] at hi
    simp at hi
  · have hlen : 0 < t.length := List.length_pos.mpr ht
    rw [chunk_text_cons n hn t ht]
    intro i hi
    match i with
    | 0 =>
      simp only [List.length_cons] at hi
      have hne : chunk_text (t.drop n) n ≠ [] := by
        intro hnil
        rw [hnil] at hi
        simp at hi
      have hdrop : t.drop n ≠ [] := by
        intro hnil
        exact hne (by rw [hnil, chunk_text_nil])
      have : n < t.length := by
        have := List.length_pos.mpr hdrop
        simp only [List.length_drop] at this
        omega
      simp only [List.getD_cons_zero, List.length_take]
      omega
    | j + 1 =>
      simp only [List.getD_cons_succ]
      simp only [List.length_cons] at hi
      exact chunk_text_full n hn (t.drop n) j (by omega)
termination_by t.length
decreasing_by
  simp only [List.length_drop]
  omega

/-- Embed colours used by the bot (`discord.Colour`). -/
inductive Colour where
  | orange
  | green
  | red
deriving DecidableEq, Repr

/-- A Discord embed as the bot builds them: a title, a description text and a
colour. -/
structure Embed where
  title : String
  description : Text
  color : Colour
deriving DecidableEq, Repr

/-- The fixed truncation marker appended by `append_response_embeds` in
`anthropic_api.py`: `response_text[:19500] + "\n\n... [Response truncated due
to length]"`. -/
def response_truncation_marker : Text :=
  "\n\n... [Response truncated due to length]".toList

/-- The loop `for index, chunk in enumerate(chunk_text(response_text, 3500),
start=1)` of `append_response_embeds`: each chunk becomes one embed titled
`"Response"`, with `f" (Part {index})"` appended when `index > 1`. -/
def label_chunks : Nat → List Text → List Embed
  | _, [] => []
  | index, c :: cs =>
    { title := "Response" ++ (if 1 < index then " (Part " ++ toString index ++ ")" else ""),
      description := c,
      color := Colour.orange } :: label_chunks (index + 1) cs

/-- Embedding of `append_response_embeds` from `anthropic_api.py`: texts over
20000 characters are cut to their first 19500 characters with a fixed marker
appended, then the text is chunked at 3500 and each chunk appended as one
embed. -/
def append_response_embeds (embeds : List Embed) (response_text : Text) : List Embed :=
  let response_text :=
    if 20000 < response_text.length then
      response_text.take 19500 ++ response_truncation_marker
    else
      response_text
  embeds ++ label_chunks 1 (chunk_text response_text 3500)

theorem label_chunks_eq_enumFrom (cs : List Text) :
    ∀ k : Nat,
      label_chunks k cs =
        (List.enumFrom k cs).map fun p =>
          { title := "Response" ++ (if 1 < p.1 then " (Part " ++ toString p.1 ++ ")" else ""),
            description := p.2,
            color := Colour.orange } := by
  induction cs with
  | nil => intro k; simp [label_chunks]
  | cons c cs ih =>
    intro k
    simp only [label_chunks, List.enumFrom_cons, List.map_cons]
    rw [ih (k + 1)]

/-- C5: for every response text, the renderer first applies the
20000-character bound — text longer than 20000 characters is replaced by its
first 19500 characters with the fixed truncation marker appended — and then
chunks at 3500; chunk 1 is titled plainly `"Response"` while every chunk `i`
with `i > 1` (1-indexed) is labelled as a continuation `"Response (Part i)"`. -/
theorem append_response_embeds_spec (embeds : List Embed) (t : Text) :
    append_response_embeds embeds t =
      embeds ++
        ((chunk_text (if 20000 < t.length then t.take 19500 ++ response_truncation_marker else t)
              3500).enum.map
          fun p =>
            { title :=
                if p.1 = 0 then "Response" else "Response (Part " ++ toString (p.1 + 1) ++ ")",
              description := p.2,
              color := Colour.orange }) := by
  dsimp only [append_response_embeds]
  congr 1
  rw [label_chunks_eq_enumFrom, List.enumFrom_eq_map_enum, List.map_map]
  apply List.map_congr_left
  intro p _
  obtain ⟨j, c⟩ := p
  match j with
  | 0 => simp
  | j + 1 =>
    simp only [Function.comp_apply, Prod.map_apply, id_eq]
    have h1 : 1 < j + 1 + 1 := by omega
    have h2 : ¬(j + 1 = 0) := by omega
    simp only [if_pos h1, if_neg h2, Embed.mk.injEq, and_true, true_and]
    rw [← String.append_assoc, ← String.append_assoc,
      show ("Response" ++ " (Part " : String) = "Response (Part " from rfl]

/-- C5 witness: a 20001-character text is truncated to 19500 characters plus
the marker and chunked; a short text is chunked unmodified with an unlabelled
first chunk. -/
theorem append_response_embeds_spec_witness :
    append_response_embeds [] ['h', 'i'] =
      [ { title := "Response", description := ['h', 'i'], color := Colour.orange } ] := by
  have h := append_response_embeds_spec [] ['h', 'i']
  rw [h]
  rfl

/-- C6: `chunk_text` at chunk size 3500 splits its input into consecutive
chunks of exactly 3500 characters, except the final chunk which is nonempty
and no longer than 3500; an input of exactly 3500 characters yields one chunk
equal to the input, and an input of 7100 characters yields chunks of sizes
3500, 3500 and 100 in order. -/
theorem chunk_text_chunk_sizes :
    (∀ t : Text, ∀ i, i + 1 < (chunk_text t CHUNK_TEXT_SIZE).length →
        ((chunk_text t CHUNK_TEXT_SIZE).getD i []).length = 3500)
    ∧ (∀ t : Text, ∀ c ∈ chunk_text t CHUNK_TEXT_SIZE, c.length ≤ 3500 ∧ c ≠ [])
    ∧ (∀ t : Text, t.length = 3500 → chunk_text t CHUNK_TEXT_SIZE = [t])
    ∧ (∀ t : Text, t.length = 7100 →
        (chunk_text t CHUNK_TEXT_SIZE).map List.length = [3500, 3500, 100]) := by
  have h3500 : (0 : Nat) < 3500 := by omega
  refine ⟨?_, ?_, ?_, ?_⟩
  · intro t i hi
    exact chunk_text_full 3500 h3500 t i hi
  · intro t c hc
    exact chunk_text_mem_length 3500 h3500 t c hc
  · intro t ht
    have hne : t ≠ [] := by
      intro h
      rw [h] at ht
      simp at ht
    rw [show CHUNK_TEXT_SIZE = 3500 from rfl, chunk_text_cons 3500 h3500 t hne]
    have hdrop : t.drop 3500 = [] := by
      apply List.eq_nil_of_length_eq_zero
      simp [ht]
    rw [hdrop, chunk_text_nil, List.take_of_length_le (by omega)]
  · intro t ht
    have hne : t ≠ [] := by
      intro h
      rw [h] at ht
      simp at ht
    rw [show CHUNK_TEXT_SIZE = 3500 from rfl, chunk_text_cons 3500 h3500 t hne]
    have hne2 : t.drop 3500 ≠ [] := by
      intro h
      have := congrArg List.length h
      simp [ht] at this
    rw [chunk_text_cons 3500 h3500 (t.drop 3500) hne2]
    have hne3 : (t.drop 3500).drop 3500 ≠ [] := by
      intro h
      have := congrArg List.length h
      simp [ht] at this
    rw [chunk_text_cons 3500 h3500 ((t.drop 3500).drop 3500) hne3]
    have hnil : ((t.drop 3500).drop 3500).drop 3500 = [] := by
      apply List.eq_nil_of_length_eq_zero
      simp [ht]
    rw [hnil, chunk_text_nil]
    simp [ht]

/-- C6 witness: the chunk-size facts evaluated at concrete inputs of lengths
3500 and 7100. -/
theorem chunk_text_chunk_sizes_witness :
    chunk_text (List.replicate 3500 'a') CHUNK_TEXT_SIZE = [List.replicate 3500 'a']
    ∧ (chunk_text (List.replicate 7100 'a') CHUNK_TEXT_SIZE).map List.length
        = [3500, 3500, 100] :=
  ⟨chunk_text_chunk_sizes.2.2.1 _ (List.length_replicate 3500 'a'),
   chunk_text_chunk_sizes.2.2.2 _ (List.length_replicate 7100 'a')⟩

/-- C10: chunking loses and reorders nothing — for every text and positive
chunk size the concatenation of the chunks is the original text; the empty
text produces no chunks, so rendering an empty response appends no display
embeds. -/
theorem chunk_text_join_faithful :
    (∀ (t : Text) (n : Nat), 0 < n → (chunk_text t n).flatten = t)
    ∧ (∀ n : Nat, chunk_text [] n = [])
    ∧ (∀ embeds : List Embed, append_response_embeds embeds [] = embeds) := by
  refine ⟨?_, ?_, ?_⟩
  · intro t n hn
    exact chunk_text_flatten n hn t
  · intro n
    exact chunk_text_nil n
  · intro embeds
    simp [append_response_embeds, chunk_text_nil, label_chunks]

/-- C10 witness: concatenating the size-3 chunks of `"abcdefgh"` restores the
text. -/
theorem chunk_text_join_faithful_witness :
    (chunk_text "abcdefgh".toList 3).flatten = "abcdefgh".toList :=
  chunk_text_join_faithful.1 "abcdefgh".toList 3 (by omega)

/-- Bytes of an attachment payload: naturals below 256. -/
abbrev Bytes := List Nat

/-- The standard base64 alphabet used by `base64.b64encode`. -/
def b64Alphabet : List Char :=
  "ABCDEFGHIJKLMNOPQRSTUVWXYZabcdefghijklmnopqrstuvwxyz0123456789+/".toList

def b64Char (n : Nat) : Char := b64Alphabet.getD n '?'

def b64Val (c : Char) : Nat := b64Alphabet.indexOf c

/-- Embedding of `base64.b64encode(data).decode("utf-8")`: groups of three
bytes become four alphabet characters; a trailing group of one or two bytes
is padded with `=`. -/
def b64encode : Bytes → List Char
  | [] => []
  | [a] => [b64Char (a / 4), b64Char (a % 4 * 16), '=', '=']
  | [a, b] => [b64Char (a / 4), b64Char (a % 4 * 16 + b / 16), b64Char (b % 16 * 4), '=']
  | a :: b :: c :: rest =>
    b64Char (a / 4) :: b64Char (a % 4 * 16 + b / 16) :: b64Char (b % 16 * 4 + c / 64) ::
      b64Char (c % 64) :: b64encode rest

/-- Base64 decoding, the inverse reading of the wire form; used to state that
a byte payload is recoverable unmodified from an encoded content block. -/
def b64decode : List Char → Bytes
  | c1 :: c2 :: c3 :: c4 :: rest =>
    if c3 = '=' then [b64Val c1 * 4 + b64Val c2 / 16]
    else if c4 = '=' then
      [b64Val c1 * 4 + b64Val c2 / 16, b64Val c2 % 16 * 16 + b64Val c3 / 4]
    else
      (b64Val c1 * 4 + b64Val c2 / 16) :: (b64Val c2 % 16 * 16 + b64Val c3 / 4) ::
        (b64Val c3 % 4 * 64 + b64Val c4) :: b64decode rest
  | _ => []

theorem b64Val_b64Char : ∀ n, n < 64 → b64Val (b64Char n) = n := by decide

theorem b64Char_ne_pad : ∀ n, n < 64 → b64Char n ≠ '=' := by decide

theorem b64_roundtrip : ∀ l : Bytes, (∀ x ∈ l, x < 256) → b64decode (b64encode l) = l
  | [], _ => rfl
  | [a], h => by
    have ha : a < 256 := h a (by simp)
    simp only [b64encode, b64decode, if_true, if_pos rfl]
    rw [b64Val_b64Char (a / 4) (by omega), b64Val_b64Char (a % 4 * 16) (by omega)]
    congr 1
    omega
  | [a, b], h => by
    have ha : a < 256 := h a (by simp)
    have hb : b < 256 := h b (by simp)
    simp only [b64encode, b64decode]
    rw [if_neg (b64Char_ne_pad (b % 16 * 4) (by omega))]
    simp only [if_true, if_pos rfl]
    rw [b64Val_b64Char (a / 4) (by omega),
      b64Val_b64Char (a % 4 * 16 + b / 16) (by omega),
      b64Val_b64Char (b % 16 * 4) (by omega)]
    congr 1
    · omega
    · congr 1
      omega
  | a :: b :: c :: rest, h => by
    have ha : a < 256 := h a (by simp)
    have hb : b < 256 := h b (by simp)
    have hc : c < 256 := h c (by simp)
    simp only [b64encode, b64decode]
    rw [if_neg (b64Char_ne_pad (b % 16 * 4 + c / 64) (by omega)),
      if_neg (b64Char_ne_pad (c % 64) (by omega))]
    rw [b64Val_b64Char (a / 4) (by omega),
      b64Val_b64Char (a % 4 * 16 + b / 16) (by omega),
      b64Val_b64Char (b % 16 * 4 + c / 64) (by omega),
      b64Val_b64Char (c % 64) (by omega)]
    rw [b64_roundtrip rest (fun x hx => h x (by simp [hx]))]
    congr 1
    · omega
    · congr 1
      · omega
      · congr 1
        omega
termination_by l => l.length

/-- Strict UTF-8 decoding, as Python `bytes.decode("utf-8")`: rejects stray
continuation bytes, truncated sequences, overlong encodings, surrogates and
values beyond U+10FFFF; `none` models `UnicodeDecodeError`. -/
def utf8Decode : Bytes → Option Text
  | [] => some []
  | b1 :: rest =>
    if b1 < 0x80 then
      (utf8Decode rest).map fun cs => Char.ofNat b1 :: cs
    else if b1 < 0xC2 then none
    else if b1 < 0xE0 then
      match rest with
      | b2 :: rest2 =>
        if b2 < 0x80 ∨ 0xC0 ≤ b2 then none
        else (utf8Decode rest2).map fun cs =>
          Char.ofNat ((b1 - 0xC0) * 64 + (b2 - 0x80)) :: cs
      | [] => none
    else if b1 < 0xF0 then
      match rest with
      | b2 :: b3 :: rest3 =>
        if b2 < (if b1 = 0xE0 then 0xA0 else 0x80) ∨
            (if b1 = 0xED then 0xA0 else 0xC0) ≤ b2 ∨ b3 < 0x80 ∨ 0xC0 ≤ b3 then none
        else (utf8Decode rest3).map fun cs =>
          Char.ofNat ((b1 - 0xE0) * 4096 + (b2 - 0x80) * 64 + (b3 - 0x80)) :: cs
      | _ => none
    else if b1 < 0xF5 then
      match rest with
      | b2 :: b3 :: b4 :: rest4 =>
        if b2 < (if b1 = 0xF0 then 0x90 else 0x80) ∨
            (if b1 = 0xF4 then 0x90 else 0xC0) ≤ b2 ∨ b3 < 0x80 ∨ 0xC0 ≤ b3 ∨
            b4 < 0x80 ∨ 0xC0 ≤ b4 then none
        else (utf8Decode rest4).map fun cs =>
          Char.ofNat
            ((b1 - 0xF0) * 262144 + (b2 - 0x80) * 4096 + (b3 - 0x80) * 64 + (b4 - 0x80)) :: cs
      | _ => none
    else none

/-- Python `bytes.decode("latin-1")`: every byte maps to the character with
the same code point; total on all byte values, so the fallback never fails. -/
def latin1Decode (data : Bytes) : Text := data.map Char.ofNat

/-- Python `str.startswith`, modelled on the character lists of the two
strings. -/
def str_startswith (s : String) (pre : String) : Bool :=
  pre.toList.isPrefixOf s.toList

/-- `SUPPORTED_IMAGE_TYPES` from `anthropic_api.py`. -/
def SUPPORTED_IMAGE_TYPES : List String :=
  ["image/jpeg", "image/png", "image/gif", "image/webp"]

/-- `SUPPORTED_DOCUMENT_TYPES` from `anthropic_api.py`. -/
def SUPPORTED_DOCUMENT_TYPES : List String :=
  ["application/pdf", "text/plain", "text/markdown", "text/csv"]

/-- A typed content block of a conversational turn, as built for the remote
API: image and document blocks carry the base64-encoded payload and media
type, text blocks carry inline text. -/
inductive ContentBlock where
  | image (media_type : String) (data : List Char)
  | document (media_type : String) (data : List Char)
  | text (text : Text)
deriving DecidableEq, Repr

/-- Embedding of `build_attachment_content_block` from `anthropic_api.py`:
allow-listed image types become base64 image blocks, `application/pdf` a
base64 document block, document/`text/*` types an inline text block decoded
as UTF-8 with Latin-1 fallback and an optional `[File: <filename>]` marker
(Python truthiness: no marker for a missing or empty filename); anything
else produces no block. -/
def build_attachment_content_block (content_type : String) (data : Bytes)
    (filename : Option String) : Option ContentBlock :=
  if content_type ∈ SUPPORTED_IMAGE_TYPES then
    some (ContentBlock.image content_type (b64encode data))
  else if content_type = "application/pdf" then
    some (ContentBlock.document "application/pdf" (b64encode data))
  else if content_type ∈ SUPPORTED_DOCUMENT_TYPES ∨
      (content_type ≠ "" ∧ str_startswith content_type "text/" = true) then
    let text_content :=
      match utf8Decode data with
      | some cs => cs
      | none => latin1Decode data
    let pfx : String :=
      match filename with
      | some f => if f = "" then "" else "[File: " ++ f ++ "]" ++ "\n\n"
      | none => ""
    some (ContentBlock.text (pfx.toList ++ text_content))
  else
    none

/-- C7: every allow-listed image MIME type yields an image block whose
recorded media type is the input MIME type and whose base64 payload decodes
back to exactly the input bytes. -/
theorem build_attachment_image_block_roundtrip (content_type : String) (data : Bytes)
    (filename : Option String) (hm : content_type ∈ SUPPORTED_IMAGE_TYPES)
    (hd : ∀ x ∈ data, x < 256) :
    build_attachment_content_block content_type data filename
        = some (ContentBlock.image content_type (b64encode data))
    ∧ b64decode (b64encode data) = data := by
  constructor
  · simp only [build_attachment_content_block]
    rw [if_pos hm]
  · exact b64_roundtrip data hd

/-- C7 witness: a PNG attachment with payload `[0, 255, 16, 7]` is classified
as an image block and its payload decodes back to the input bytes. -/
theorem build_attachment_image_block_roundtrip_witness :
    build_attachment_content_block "image/png" [0, 255, 16, 7] none
        = some (ContentBlock.image "image/png" (b64encode [0, 255, 16, 7]))
    ∧ b64decode (b64encode [0, 255, 16, 7]) = [0, 255, 16, 7] :=
  build_attachment_image_block_roundtrip "image/png" [0, 255, 16, 7] none
    (by decide) (by decide)

/-- C8 counterexample: the claim says a known filename always yields the
`[File: <filename>]` marker, but the code tests Python truthiness, so the
known-but-empty filename `""` produces a text block without the marker. -/
theorem text_block_empty_filename_counterexample :
    build_attachment_content_block "text/plain" [104, 105] (some "")
        = some (ContentBlock.text ['h', 'i'])
    ∧ (['h', 'i'] : Text) ≠ "[File: ]\n\n".toList ++ ['h', 'i'] := by
  constructor
  · decide
  · decide

/-- C8 (amended): for every byte payload and MIME type beginning with
`text/` or in the text allow-list, classification never fails: bytes decode
as UTF-8 with Latin-1 fallback, and the text block is prefixed with a
`[File: <filename>]` marker line plus blank line exactly when a nonempty
filename is known. -/
theorem build_attachment_text_block_spec (content_type : String) (data : Bytes)
    (filename : Option String)
    (htext : content_type ∈ ["text/csv", "text/markdown", "text/plain"] ∨
      str_startswith content_type "text/" = true) :
    build_attachment_content_block content_type data filename
      = some (ContentBlock.text
          ((match filename with
            | some f => if f = "" then "" else "[File: " ++ f ++ "]" ++ "\n\n"
            | none => "").toList
            ++ (utf8Decode data).getD (latin1Decode data))) := by
  have hstarts : str_startswith content_type "text/" = true := by
    rcases htext with hmem | hs
    · simp only [List.mem_cons, List.not_mem_nil, or_false] at hmem
      rcases hmem with rfl | rfl | rfl <;> decide
    · exact hs
  have hne : content_type ≠ "" := by
    intro he
    rw [he] at hstarts
    exact absurd hstarts (by decide)
  have himg : content_type ∉ SUPPORTED_IMAGE_TYPES := by
    intro hmem
    simp only [SUPPORTED_IMAGE_TYPES, List.mem_cons, List.not_mem_nil, or_false] at hmem
    rcases hmem with rfl | rfl | rfl | rfl <;> exact absurd hstarts (by decide)
  have hpdf : content_type ≠ "application/pdf" := by
    intro he
    rw [he] at hstarts
    exact absurd hstarts (by decide)
  simp only [build_attachment_content_block]
  rw [if_neg himg, if_neg hpdf, if_pos (Or.inr ⟨hne, hstarts⟩)]
  cases h : utf8Decode data <;> simp [h, Option.getD]

/-- C8 witness: a `text/plain` file named `notes.txt` with payload `[104]`
gets the filename marker and the UTF-8 decoding of its bytes. -/
theorem build_attachment_text_block_spec_witness :
    build_attachment_content_block "text/plain" [104] (some "notes.txt")
      = some (ContentBlock.text ("[File: notes.txt]\n\n".toList
          ++ (utf8Decode [104]).getD (latin1Decode [104]))) := by
  have h := build_attachment_text_block_spec "text/plain" [104] (some "notes.txt")
    (by decide)
  rw [h]
  decide

/-- C9: any MIME type outside the supported sets — not an allow-listed image
type, not `application/pdf`, not `text/`-prefixed and not in the text
allow-list — produces no content block, for every byte payload. -/
theorem build_attachment_unsupported_none (content_type : String) (data : Bytes)
    (filename : Option String)
    (h1 : content_type ∉ SUPPORTED_IMAGE_TYPES)
    (h2 : content_type ≠ "application/pdf")
    (h3 : str_startswith content_type "text/" = false)
    (h4 : content_type ∉ ["text/csv", "text/markdown", "text/plain"]) :
    build_attachment_content_block content_type data filename = none := by
  have hdoc : content_type ∉ SUPPORTED_DOCUMENT_TYPES := by
    intro hmem
    simp only [SUPPORTED_DOCUMENT_TYPES, List.mem_cons, List.not_mem_nil, or_false] at hmem
    rcases hmem with rfl | rfl | rfl | rfl
    · exact h2 rfl
    · exact h4 (by decide)
    · exact h4 (by decide)
    · exact h4 (by decide)
  simp only [build_attachment_content_block]
  rw [if_neg h1, if_neg h2, if_neg ?_]
  intro hcond
  rcases hcond with hmem | ⟨_, hs⟩
  · exact hdoc hmem
  · rw [h3] at hs
    exact Bool.false_ne_true hs

/-- C9 witness: an `application/zip` attachment and an attachment with the
empty MIME type both produce no block. -/
theorem build_attachment_unsupported_none_witness :
    build_attachment_content_block "application/zip" [1, 2, 3] none = none
    ∧ build_attachment_content_block "" [1, 2, 3] (some "f.bin") = none :=
  ⟨build_attachment_unsupported_none "application/zip" [1, 2, 3] none
      (by decide) (by decide) (by decide) (by decide),
   build_attachment_unsupported_none "" [1, 2, 3] (some "f.bin")
      (by decide) (by decide) (by decide) (by decide)⟩

/-- Embedding of the `ChatCompletionParameters` dataclass from `util.py`;
sampling parameters are numeric values the claims never compute with, so the
floats are modelled as rationals. -/
structure ChatCompletionParameters where
  model : String
  system : Option String := none
  temperature : Option Rat := none
  top_p : Option Rat := none
  top_k : Option Int := none
  max_tokens : Int := 4096
  conversation_starter : Option UserId := none
  conversation_id : Option ConvId := none
  channel_id : Option ChannelId := none
  paused : Bool := false
deriving DecidableEq, Repr

/-- A conversational turn: the dict `{"role": "user", "content": [...]}` with
its list of content blocks, or `{"role": "assistant", "content": text}`. -/
inductive Turn where
  | user (content : List ContentBlock)
  | assistant (text : Text)
deriving DecidableEq, Repr

/-- The `Conversation` dataclass from `util.py`. -/
structure Conversation where
  params : ChatCompletionParameters
  messages : List Turn
deriving DecidableEq, Repr

/-- Python `str.strip()`, on the character list of the string. -/
def str_strip (s : String) : String :=
  String.mk (((s.toList.dropWhile Char.isWhitespace).reverse.dropWhile
    Char.isWhitespace).reverse)

/-- The observable data of an exception raised by a completion call:
`getattr(error, "message", None)`, `getattr(error, "status_code", None)`,
`type(error).__name__` and `str(error)`. -/
structure ApiError where
  message : Option String := none
  status_code : Option Int := none
  type_name : String := "Exception"
  str_repr : String := ""
deriving DecidableEq, Repr

/-- Embedding of `format_anthropic_error` from `util.py`: prefer the
exception's `message` attribute when it is a non-blank string, else the
stripped `str(error)`; append `Status:`/`Error:` detail lines when a status
code is present or the type name is informative. -/
def format_anthropic_error (error : ApiError) : String :=
  let message :=
    match error.message with
    | some m => if str_strip m = "" then str_strip error.str_repr else m
    | none => str_strip error.str_repr
  let details :=
    (match error.status_code with
     | some status => ["Status: " ++ toString status]
     | none => [])
    ++ (if error.type_name ≠ "" ∧ error.type_name ≠ "Exception" then
          ["Error: " ++ error.type_name]
        else [])
  if details ≠ [] then message ++ "\n\n" ++ String.intercalate "\n" details
  else message

/-- A `ButtonView` handle as stored in `self.views`: the data the cog passes
when constructing it. -/
structure ButtonView where
  conversation_starter : UserId
  conversation_id : ConvId
deriving DecidableEq, Repr

/-- The cog's mutable state: the session table `self.conversations` (a Python
dict in insertion order), the message index `self.message_to_conversation_id`
and the UI-view table `self.views`. -/
structure Store where
  conversations : List (ConvId × Conversation)
  message_to_conversation_id : List (Nat × ConvId)
  views : List (UserId × ButtonView)
deriving DecidableEq, Repr

/-- The freshly constructed cog: all tables empty. -/
def empty_store : Store := ⟨[], [], []⟩

/-- Assignment `d[k] = v` on a Python dict modelled as an insertion-ordered
association list: replaces in place when the key is present, appends
otherwise. -/
def dictInsert {K V : Type} [DecidableEq K] (k : K) (v : V) : List (K × V) → List (K × V)
  | [] => [(k, v)]
  | p :: rest => if p.1 = k then (k, v) :: rest else p :: dictInsert k v rest

/-- An inbound attachment as the handlers see it: `attachment.content_type`
(possibly missing), `attachment.filename`, and the result of
`_fetch_attachment_bytes` (`none` models a failed HTTP fetch). -/
structure Attachment where
  content_type : Option String
  filename : Option String
  data : Option Bytes
deriving DecidableEq, Repr

/-- An inbound Discord message: author, channel, text content and
attachments. -/
structure InMsg where
  author : UserId
  channel : ChannelId
  content : Text
  attachments : List Attachment
deriving DecidableEq, Repr

/-- The construction of `user_content` in the handlers: the text block first,
then one classified block per fetched attachment in order, skipping
attachments whose fetch failed (`data = none`) or whose classification
returned `None`; `attachment.content_type or ""` maps a missing MIME type to
`""`. -/
def build_user_content (content : Text) (attachments : List Attachment) :
    List ContentBlock :=
  ContentBlock.text content ::
    attachments.filterMap fun a =>
      a.data.bind fun d =>
        build_attachment_content_block (a.content_type.getD "") d a.filename

/-- The `api_params` dict handed to `client.messages.create`: model,
max_tokens and messages always; system only when truthy; each sampling
parameter only when not `None`. -/
structure ApiRequest where
  model : String
  max_tokens : Int
  messages : List Turn
  system : Option String
  temperature : Option Rat
  top_p : Option Rat
  top_k : Option Int
deriving DecidableEq, Repr

/-- Python truthiness of the `if system:` guard in the handlers: `None` and
`""` both omit the system field. -/
def truthy_system (system : Option String) : Option String :=
  match system with
  | some s => if s = "" then none else some s
  | none => none

/-- The result of an awaited `client.messages.create` call, supplied as an
oracle: an exception, or a response whose first content element yields the
response text (`none` models an empty `response.content`). -/
abbrev RemoteResult := Except ApiError (Option Text)

/-- `response.content[0].text if response.content else "No response."`. -/
def response_text_of (r : Option Text) : Text := r.getD "No response.".toList

/-- The replies a handler run can send: the rendered embeds, an error embed,
or the fixed no-content notice. -/
inductive ReplyOut where
  | reply (embeds : List Embed)
  | errorReply (e : Embed)
  | noContentReply
deriving DecidableEq, Repr

/-- What a run of `handle_new_message_in_conversation` did: the (possibly
updated) conversation object, the request passed to the remote client if one
was made, whether the typing task was started, whether it was cancelled, and
the reply sent. -/
structure HandlerResult where
  conversation : Conversation
  request : Option ApiRequest
  typingStarted : Bool
  typingCancelled : Bool
  reply : Option ReplyOut
deriving DecidableEq, Repr

/-- Embedding of `AnthropicAPI.handle_new_message_in_conversation`: returns
before any side effect when the author is not the conversation starter or the
conversation is paused; otherwise starts the typing task, appends the user
turn, and calls the remote client with the whole accumulated history.  On
success it cancels the typing task, appends the assistant turn and replies
with the rendered embeds (nothing is sent when `conversation_id` is `None`);
on failure the `except` block replies with the formatted error and the
`finally` block cancels the typing task. -/
def handle_new_message_in_conversation (message : InMsg) (conversation : Conversation)
    (remote : RemoteResult) : HandlerResult :=
  let params := conversation.params
  if some message.author ≠ params.conversation_starter ∨ params.paused then
    { conversation := conversation, request := none, typingStarted := false,
      typingCancelled := false, reply := none }
  else
    let user_content := build_user_content message.content message.attachments
    let messages1 := conversation.messages ++ [Turn.user user_content]
    let api_params : ApiRequest :=
      { model := params.model, max_tokens := params.max_tokens, messages := messages1,
        system := truthy_system params.system, temperature := params.temperature,
        top_p := params.top_p, top_k := params.top_k }
    match remote with
    | Except.error e =>
      let description := format_anthropic_error e
      let description :=
        if 4000 < description.length then
          description.take 4000 ++ "\n\n... (error message truncated)"
        else description
      { conversation := { conversation with messages := messages1 },
        request := some api_params, typingStarted := true, typingCancelled := true,
        reply := some (ReplyOut.errorReply
          { title := "Error", description := description.toList, color := Colour.red }) }
    | Except.ok content =>
      let response_text := response_text_of content
      let messages2 := messages1 ++ [Turn.assistant response_text]
      let embeds := append_response_embeds [] response_text
      { conversation := { conversation with messages := messages2 },
        request := some api_params, typingStarted := true, typingCancelled := true,
        reply :=
          match params.conversation_id with
          | none => none
          | some _ =>
            some (if embeds = [] then ReplyOut.noContentReply else ReplyOut.reply embeds) }

/-- The observable effects of the `keep_typing` loop body: entering
`channel.typing()` and `await asyncio.sleep(5)`. -/
inductive TypingEffect where
  | typingSignal
  | sleepSeconds (n : Nat)
deriving DecidableEq, Repr

inductive LoopControl where
  | continueLoop
  | exitLoop
deriving DecidableEq, Repr

/-- One iteration of the `while True:` body of `keep_typing`: emit the typing
signal, sleep five seconds; the body contains no `break` or `return`, so
control always re-enters the loop. -/
def keep_typing_body : List TypingEffect × LoopControl :=
  ([TypingEffect.typingSignal, TypingEffect.sleepSeconds 5], LoopControl.continueLoop)

/-- Running the `while True:` loop of `keep_typing` for `n` iterations: the
effects emitted so far and the loop's own outcome (`none` while still
looping). -/
def keep_typing_loop : Nat → List TypingEffect × Option Unit
  | 0 => ([], none)
  | n + 1 =>
    match keep_typing_body with
    | (effects, LoopControl.continueLoop) =>
      let rest := keep_typing_loop n
      (effects ++ rest.1, rest.2)
    | (effects, LoopControl.exitLoop) => (effects, some ())

/-- How the task ends when a `CancelledError` reaches it. -/
inductive TaskOutcome where
  | reraisedCancelled
  | returned
deriving DecidableEq, Repr

/-- The `except asyncio.CancelledError:` handler of `keep_typing`: it logs
and then re-raises, so cancellation propagates as a clean stop, never a
normal return or a user-visible error. -/
def keep_typing_on_cancel : TaskOutcome := TaskOutcome.reraisedCancelled

/-- A complete run of `keep_typing` cancelled after `n` loop iterations: the
effects emitted and the final outcome. -/
def keep_typing_cancelled_run (n : Nat) : List TypingEffect × TaskOutcome :=
  ((keep_typing_loop n).1, keep_typing_on_cancel)

/-- Embedding of the routing scan of `AnthropicAPI.on_message`: messages
authored by the bot itself are dropped before any lookup; otherwise
`self.conversations.values()` is scanned in table order and the first
conversation whose channel is the message's channel and whose starter is the
message's author receives the message. -/
def on_message_route (bot_user : UserId) (conversations : List (ConvId × Conversation))
    (message : InMsg) : Option ConvId :=
  if message.author = bot_user then none
  else
    (conversations.find? fun p =>
      decide (p.2.params.channel_id = some message.channel)
        && decide (p.2.params.conversation_starter = some message.author)).map
      fun p => p.1

/-- The handler mutates the routed `Conversation` object in place, so the
table maps its id to the updated conversation afterwards. -/
def update_conversation (conversations : List (ConvId × Conversation)) (cid : ConvId)
    (c : Conversation) : List (ConvId × Conversation) :=
  conversations.map fun p => if p.1 = cid then (p.1, c) else p

/-- Embedding of `AnthropicAPI.on_message` as a store transition: route the
message, run `handle_new_message_in_conversation` on the routed conversation,
and record the platform-assigned ids of the sent reply messages in the
message index. -/
def on_message (bot_user : UserId) (store : Store) (message : InMsg)
    (remote : RemoteResult) (reply_ids : List Nat) : Store :=
  match on_message_route bot_user store.conversations message with
  | none => store
  | some cid =>
    match store.conversations.lookup cid with
    | none => store
    | some conversation =>
      let r := handle_new_message_in_conversation message conversation remote
      { store with
        conversations := update_conversation store.conversations cid r.conversation,
        message_to_conversation_id :=
          match conversation.params.conversation_id with
          | some main_id =>
            reply_ids.foldl (fun index mid => dictInsert mid main_id index)
              store.message_to_conversation_id
          | none => store.message_to_conversation_id }

/-- A `/anthropic converse` invocation: the slash-command arguments plus the
identities the platform supplies (`ctx.author`, `ctx.channel`,
`ctx.interaction.id` and the id assigned to the reply message sent on
success). -/
structure StartRequest where
  author : UserId
  channel : Option ChannelId
  interaction_id : ConvId
  prompt : Text
  model : String := "claude-opus-4-5-20251101"
  system : Option String := none
  attachment : Option Attachment := none
  max_tokens : Int := 16384
  temperature : Option Rat := none
  top_p : Option Rat := none
  top_k : Option Int := none
  reply_message_id : Nat := 0
deriving DecidableEq, Repr

inductive StartOutcome where
  | noChannel
  | duplicateSession
  | completionFailed (e : ApiError)
  | noResponse
  | started (cid : ConvId)
deriving DecidableEq, Repr

/-- The result of a `converse` invocation: the updated store, the outcome,
and the request passed to the remote client when a call was made. -/
structure ConverseResult where
  store : Store
  outcome : StartOutcome
  request : Option ApiRequest
deriving DecidableEq, Repr

/-- The duplicate-session scan at the top of `converse`: an active
conversation whose starter is the requesting user and whose channel is the
request's channel. -/
def has_active_conversation (conversations : List (ConvId × Conversation))
    (author : UserId) (channel : ChannelId) : Bool :=
  conversations.any fun p =>
    decide (p.2.params.conversation_starter = some author)
      && decide (p.2.params.channel_id = some channel)

/-- Embedding of `AnthropicAPI.converse`: rejects when the channel context is
missing; rejects with the duplicate-session error — before any remote call —
when the requester already has an active conversation in the channel;
otherwise builds the single-turn history, calls the remote client, and, when
the response renders to at least one embed, stores the new conversation under
the interaction id with a history of the user turn and the assistant turn.
The header embed built from the request parameters is display-only and is
elided here except for the `len(embeds) == 1` test, which holds exactly when
`append_response_embeds` appended nothing. -/
def converse (store : Store) (req : StartRequest) (remote : RemoteResult) :
    ConverseResult :=
  match req.channel with
  | none => { store := store, outcome := StartOutcome.noChannel, request := none }
  | some channel =>
    if has_active_conversation store.conversations req.author channel then
      { store := store, outcome := StartOutcome.duplicateSession, request := none }
    else
      let user_content := build_user_content req.prompt req.attachment.toList
      let api_params : ApiRequest :=
        { model := req.model, max_tokens := req.max_tokens,
          messages := [Turn.user user_content], system := truthy_system req.system,
          temperature := req.temperature, top_p := req.top_p, top_k := req.top_k }
      match remote with
      | Except.error e =>
        { store := store, outcome := StartOutcome.completionFailed e,
          request := some api_params }
      | Except.ok content =>
        let response_text := response_text_of content
        let embeds := append_response_embeds [] response_text
        if embeds = [] then
          { store := store, outcome := StartOutcome.noResponse,
            request := some api_params }
        else
          let params : ChatCompletionParameters :=
            { model := req.model, system := req.system, max_tokens := req.max_tokens,
              temperature := req.temperature, top_p := req.top_p, top_k := req.top_k,
              conversation_starter := some req.author, channel_id := some channel,
              conversation_id := some req.interaction_id }
          let conversation : Conversation :=
            { params := params,
              messages := [Turn.user user_content, Turn.assistant response_text] }
          { store :=
              { conversations :=
                  dictInsert req.interaction_id conversation store.conversations,
                message_to_conversation_id :=
                  dictInsert req.reply_message_id req.interaction_id
                    store.message_to_conversation_id,
                views :=
                  dictInsert req.author
                    { conversation_starter := req.author,
                      conversation_id := req.interaction_id }
                    store.views },
            outcome := StartOutcome.started req.interaction_id,
            request := some api_params }

/-- Modelled from the spec: the interactive pause/resume control lives in
`button_view.py`, which is not among the sources; per the spec it flips the
session's `paused` flag and touches nothing else. -/
def set_paused (store : Store) (cid : ConvId) (b : Bool) : Store :=
  { store with
    conversations := store.conversations.map fun p =>
      if p.1 = cid then (p.1, { p.2 with params := { p.2.params with paused := b } })
      else p }

/-- Modelled from the spec: external session termination lives in
`button_view.py`, which is not among the sources; per the spec it removes the
session from the table and leaves stale index entries behind. -/
def end_conversation (store : Store) (cid : ConvId) : Store :=
  { store with conversations := store.conversations.filter fun p => p.1 != cid }

/-- One transition of the cog's state: a `/anthropic converse` invocation, an
inbound message event, or one of the spec-modelled external controls. -/
inductive Step : Store → Store → Prop where
  | start (s : Store) (req : StartRequest) (remote : RemoteResult) :
      Step s (converse s req remote).store
  | message (s : Store) (bot_user : UserId) (msg : InMsg) (remote : RemoteResult)
      (reply_ids : List Nat) : Step s (on_message bot_user s msg remote reply_ids)
  | pause (s : Store) (cid : ConvId) (b : Bool) : Step s (set_paused s cid b)
  | finish (s : Store) (cid : ConvId) : Step s (end_conversation s cid)

/-- The states reachable from the freshly constructed cog. -/
inductive Reachable : Store → Prop where
  | init : Reachable empty_store
  | step (s t : Store) : Reachable s → Step s t → Reachable t

/-- Two conversations claim the same (user, channel) pair: both carry the
same concrete starter and the same concrete channel. -/
def same_pair (c d : Conversation) : Prop :=
  c.params.conversation_starter ≠ none
    ∧ c.params.conversation_starter = d.params.conversation_starter
    ∧ c.params.channel_id ≠ none
    ∧ c.params.channel_id = d.params.channel_id

/-- The session-table invariant: distinct dict keys, and no two sessions for
the same (user, channel) pair. -/
def StoreInv (store : Store) : Prop :=
  store.conversations.Pairwise fun p q => p.1 ≠ q.1 ∧ ¬same_pair p.2 q.2

theorem same_pair_symm {c d : Conversation} (h : same_pair c d) : same_pair d c := by
  obtain ⟨h1, h2, h3, h4⟩ := h
  refine ⟨?_, h2.symm, ?_, h4.symm⟩
  · rw [← h2]
    exact h1
  · rw [← h4]
    exact h3

theorem same_pair_congr {a b c d : Conversation}
    (h1 : a.params.conversation_starter = c.params.conversation_starter)
    (h2 : a.params.channel_id = c.params.channel_id)
    (h3 : b.params.conversation_starter = d.params.conversation_starter)
    (h4 : b.params.channel_id = d.params.channel_id) :
    same_pair a b ↔ same_pair c d := by
  unfold same_pair
  rw [h1, h2, h3, h4]

theorem pairwise_mem_eq {α : Type} {R : α → α → Prop} :
    ∀ {l : List α} {a b : α}, l.Pairwise R → a ∈ l → b ∈ l → ¬R a b → ¬R b a → a = b := by
  intro l
  induction l with
  | nil =>
    intro a b _ ha _ _ _
    simp at ha
  | cons x xs ih =>
    intro a b hp ha hb hab hba
    rcases List.mem_cons.mp ha with rfl | ha2
    · rcases List.mem_cons.mp hb with rfl | hb2
      · rfl
      · exact absurd ((List.pairwise_cons.mp hp).1 b hb2) hab
    · rcases List.mem_cons.mp hb with rfl | hb2
      · exact absurd ((List.pairwise_cons.mp hp).1 a ha2) hba
      · exact ih (List.pairwise_cons.mp hp).2 ha2 hb2 hab hba

theorem dictInsert_mem {K V : Type} [DecidableEq K] {k : K} {v : V} :
    ∀ {l : List (K × V)} {q : K × V}, q ∈ dictInsert k v l → q = (k, v) ∨ q ∈ l := by
  intro l
  induction l with
  | nil =>
    intro q hq
    simp only [dictInsert, List.mem_singleton] at hq
    exact Or.inl hq
  | cons p rest ih =>
    intro q hq
    by_cases hk : p.1 = k
    · simp only [dictInsert, if_pos hk] at hq
      rcases List.mem_cons.mp hq with rfl | hq2
      · exact Or.inl rfl
      · exact Or.inr (List.mem_cons_of_mem p hq2)
    · simp only [dictInsert, if_neg hk] at hq
      rcases List.mem_cons.mp hq with rfl | hq2
      · exact Or.inr (List.mem_cons_self _ _)
      · rcases ih hq2 with h | h
        · exact Or.inl h
        · exact Or.inr (List.mem_cons_of_mem _ h)

theorem dictInsert_pairwise {k : ConvId} {v : Conversation} :
    ∀ {l : List (ConvId × Conversation)},
      l.Pairwise (fun p q => p.1 ≠ q.1 ∧ ¬same_pair p.2 q.2) →
      (∀ p ∈ l, ¬same_pair p.2 v) →
      (dictInsert k v l).Pairwise fun p q => p.1 ≠ q.1 ∧ ¬same_pair p.2 q.2 := by
  intro l
  induction l with
  | nil =>
    intro _ _
    simp [dictInsert]
  | cons p rest ih =>
    intro hp hnc
    have hp' := List.pairwise_cons.mp hp
    by_cases hk : p.1 = k
    · simp only [dictInsert, if_pos hk]
      refine List.pairwise_cons.mpr ⟨?_, hp'.2⟩
      intro q hq
      refine ⟨?_, ?_⟩
      · rw [← hk]
        exact (hp'.1 q hq).1
      · intro hs
        exact hnc q (List.mem_cons_of_mem p hq) (same_pair_symm hs)
    · simp only [dictInsert, if_neg hk]
      refine List.pairwise_cons.mpr
        ⟨?_, ih hp'.2 fun r hr => hnc r (List.mem_cons_of_mem p hr)⟩
      intro q hq
      rcases dictInsert_mem hq with rfl | hq2
      · exact ⟨hk, fun hs => hnc p (List.mem_cons_self p rest) hs⟩
      · exact hp'.1 q hq2

theorem pairwise_conv_map {l : List (ConvId × Conversation)}
    (f : ConvId × Conversation → ConvId × Conversation)
    (hkey : ∀ p ∈ l, (f p).1 = p.1)
    (hstart : ∀ p ∈ l,
      (f p).2.params.conversation_starter = p.2.params.conversation_starter)
    (hchan : ∀ p ∈ l, (f p).2.params.channel_id = p.2.params.channel_id)
    (hp : l.Pairwise fun p q => p.1 ≠ q.1 ∧ ¬same_pair p.2 q.2) :
    (l.map f).Pairwise fun p q => p.1 ≠ q.1 ∧ ¬same_pair p.2 q.2 := by
  rw [List.pairwise_map]
  refine List.Pairwise.imp_of_mem ?_ hp
  intro a b ha hb hR
  refine ⟨?_, ?_⟩
  · rw [hkey a ha, hkey b hb]
    exact hR.1
  · rw [same_pair_congr (hstart a ha) (hchan a ha) (hstart b hb) (hchan b hb)]
    exact hR.2

theorem lookup_mem_eq :
    ∀ {l : List (ConvId × Conversation)},
      l.Pairwise (fun p q => p.1 ≠ q.1 ∧ ¬same_pair p.2 q.2) →
      ∀ {cid : ConvId} {conv : Conversation}, l.lookup cid = some conv →
      ∀ {p : ConvId × Conversation}, p ∈ l → p.1 = cid → p.2 = conv := by
  intro l
  induction l with
  | nil =>
    intro _ cid conv hl
    simp [List.lookup] at hl
  | cons x rest ih =>
    intro hp cid conv hl p hpm hpk
    have hp' := List.pairwise_cons.mp hp
    by_cases hx : x.1 = cid
    · have hbeq : (cid == x.1) = true := beq_iff_eq.mpr hx.symm
      simp only [List.lookup, hbeq, Option.some.injEq] at hl
      rcases List.mem_cons.mp hpm with rfl | hpm2
      · exact hl
      · exact absurd (hx.trans hpk.symm) (hp'.1 p hpm2).1
    · have hbeq : (cid == x.1) = false :=
        beq_eq_false_iff_ne.mpr fun he => hx he.symm
      simp only [List.lookup, hbeq] at hl
      rcases List.mem_cons.mp hpm with rfl | hpm2
      · exact absurd hpk hx
      · exact ih hp'.2 hl hpm2 hpk

theorem handle_new_message_params (message : InMsg) (conversation : Conversation)
    (remote : RemoteResult) :
    (handle_new_message_in_conversation message conversation remote).conversation.params
      = conversation.params := by
  unfold handle_new_message_in_conversation
  dsimp only
  by_cases hguard : (some message.author ≠ conversation.params.conversation_starter
      ∨ conversation.params.paused = true)
  · rw [if_pos hguard]
  · rw [if_neg hguard]
    cases remote <;> rfl

theorem converse_preserves_inv (s : Store) (req : StartRequest) (remote : RemoteResult)
    (h : StoreInv s) : StoreInv (converse s req remote).store := by
  unfold StoreInv at h ⊢
  unfold converse
  cases hch : req.channel with
  | none => exact h
  | some channel =>
    dsimp only
    by_cases hdup : has_active_conversation s.conversations req.author channel = true
    · rw [if_pos hdup]
      exact h
    · rw [if_neg hdup]
      cases remote with
      | error e => exact h
      | ok content =>
        dsimp only
        by_cases hemb : append_response_embeds [] (response_text_of content) = []
        · rw [if_pos hemb]
          exact h
        · rw [if_neg hemb]
          refine dictInsert_pairwise h ?_
          intro p hp hs
          obtain ⟨hne, he1, hcne, he2⟩ := hs
          apply hdup
          unfold has_active_conversation
          refine List.any_eq_true.mpr ⟨p, hp, ?_⟩
          simp only [Bool.and_eq_true, decide_eq_true_eq]
          constructor
          · simpa using he1
          · simpa using he2

theorem on_message_preserves_inv (bot_user : UserId) (s : Store) (msg : InMsg)
    (remote : RemoteResult) (reply_ids : List Nat) (h : StoreInv s) :
    StoreInv (on_message bot_user s msg remote reply_ids) := by
  unfold on_message
  cases hr : on_message_route bot_user s.conversations msg with
  | none => exact h
  | some cid =>
    dsimp only
    cases hl : s.conversations.lookup cid with
    | none => exact h
    | some conversation =>
      dsimp only
      unfold StoreInv at h ⊢
      dsimp only
      unfold update_conversation
      refine pairwise_conv_map _ ?_ ?_ ?_ h
      · intro p hp
        by_cases hpk : p.1 = cid <;> simp [hpk]
      · intro p hp
        by_cases hpk : p.1 = cid
        · have hpe : p.2 = conversation := lookup_mem_eq h hl hp hpk
          rw [if_pos hpk]
          dsimp only
          rw [handle_new_message_params, hpe]
        · rw [if_neg hpk]
      · intro p hp
        by_cases hpk : p.1 = cid
        · have hpe : p.2 = conversation := lookup_mem_eq h hl hp hpk
          rw [if_pos hpk]
          dsimp only
          rw [handle_new_message_params, hpe]
        · rw [if_neg hpk]

theorem set_paused_preserves_inv (s : Store) (cid : ConvId) (b : Bool)
    (h : StoreInv s) : StoreInv (set_paused s cid b) := by
  unfold StoreInv at h ⊢
  unfold set_paused
  dsimp only
  refine pairwise_conv_map _ ?_ ?_ ?_ h
  · intro p hp
    by_cases hpk : p.1 = cid <;> simp [hpk]
  · intro p hp
    by_cases hpk : p.1 = cid <;> simp [hpk]
  · intro p hp
    by_cases hpk : p.1 = cid <;> simp [hpk]

theorem end_conversation_preserves_inv (s : Store) (cid : ConvId)
    (h : StoreInv s) : StoreInv (end_conversation s cid) := by
  unfold StoreInv at h ⊢
  unfold end_conversation
  dsimp only
  exact List.Pairwise.filter _ h

theorem reachable_store_inv : ∀ s : Store, Reachable s → StoreInv s := by
  intro s h
  induction h with
  | init => simp [StoreInv, empty_store]
  | step s t hr hstep ih =>
    cases hstep with
    | start req remote => exact converse_preserves_inv s req remote ih
    | message bot_user msg remote reply_ids =>
      exact on_message_preserves_inv bot_user s msg remote reply_ids ih
    | pause cid b => exact set_paused_preserves_inv s cid b ih
    | finish cid => exact end_conversation_preserves_inv s cid ih

/-- C1: starting a conversation while the requester already has an active one
in the same channel is rejected with the duplicate-session error before any
remote call and leaves the whole store unchanged, whatever the new request's
prompt, model or other parameters; consequently every reachable state has at
most one active session per (user, channel) pair. -/
theorem converse_duplicate_rejected_and_pair_unique :
    (∀ (store : Store) (req : StartRequest) (remote : RemoteResult) (channel : ChannelId),
      req.channel = some channel →
      has_active_conversation store.conversations req.author channel = true →
      converse store req remote =
        { store := store, outcome := StartOutcome.duplicateSession, request := none })
    ∧ (∀ store : Store, Reachable store → StoreInv store) := by
  constructor
  · intro store req remote channel hch hdup
    unfold converse
    rw [hch]
    dsimp only
    rw [if_pos hdup]
  · exact reachable_store_inv

/-- C2: a message is routed to session `cid` iff it is not authored by the
bot, its channel is the session's channel and its author is the session's
starter (under the store invariant there is at most one match); a message
from the bot's own identity is never routed; and a paused session's handler
returns before any side effect — no turn appended, no typing task, no remote
call, no reply. -/
theorem on_message_routing_correct :
    (∀ (bot_user : UserId) (conversations : List (ConvId × Conversation))
        (message : InMsg) (cid : ConvId) (conversation : Conversation),
      conversations.Pairwise (fun p q => p.1 ≠ q.1 ∧ ¬same_pair p.2 q.2) →
      (cid, conversation) ∈ conversations →
      (on_message_route bot_user conversations message = some cid ↔
        (message.author ≠ bot_user
          ∧ conversation.params.channel_id = some message.channel
          ∧ conversation.params.conversation_starter = some message.author)))
    ∧ (∀ (bot_user : UserId) (conversations : List (ConvId × Conversation))
        (message : InMsg),
        message.author = bot_user →
        on_message_route bot_user conversations message = none)
    ∧ (∀ (message : InMsg) (conversation : Conversation) (remote : RemoteResult),
        conversation.params.paused = true →
        handle_new_message_in_conversation message conversation remote =
          { conversation := conversation, request := none, typingStarted := false,
            typingCancelled := false, reply := none }) := by
  refine ⟨?_, ?_, ?_⟩
  · intro bot_user conversations message cid conversation hinv hmem
    constructor
    · intro hroute
      unfold on_message_route at hroute
      by_cases hbot : message.author = bot_user
      · rw [if_pos hbot] at hroute
        exact absurd hroute (by simp)
      · rw [if_neg hbot] at hroute
        obtain ⟨q, hfind, hq1⟩ := Option.map_eq_some'.mp hroute
        have hqpred := List.find?_some hfind
        have hqmem := List.mem_of_find?_eq_some hfind
        simp only [Bool.and_eq_true, decide_eq_true_eq] at hqpred
        have hqe : q = (cid, conversation) := by
          refine pairwise_mem_eq hinv hqmem hmem ?_ ?_
          · intro hR
            exact hR.1 hq1
          · intro hR
            exact hR.1 hq1.symm
        rw [hqe] at hqpred
        exact ⟨hbot, hqpred.1, hqpred.2⟩
    · rintro ⟨hbot, hch, hst⟩
      unfold on_message_route
      rw [if_neg hbot]
      have hex : ∃ x ∈ conversations,
          (decide (x.2.params.channel_id = some message.channel)
            && decide (x.2.params.conversation_starter = some message.author)) = true := by
        refine ⟨(cid, conversation), hmem, ?_⟩
        simp only [Bool.and_eq_true, decide_eq_true_eq]
        exact ⟨hch, hst⟩
      obtain ⟨q, hfind⟩ := Option.isSome_iff_exists.mp (List.find?_isSome.mpr hex)
      have hqpred := List.find?_some hfind
      have hqmem := List.mem_of_find?_eq_some hfind
      simp only [Bool.and_eq_true, decide_eq_true_eq] at hqpred
      have hsp : same_pair q.2 conversation := by
        refine ⟨?_, ?_, ?_, ?_⟩
        · rw [hqpred.2]
          simp
        · rw [hqpred.2, hst]
        · rw [hqpred.1]
          simp
        · rw [hqpred.1, hch]
      have hqe : q = (cid, conversation) := by
        refine pairwise_mem_eq hinv hqmem hmem ?_ ?_
        · intro hR
          exact hR.2 hsp
        · intro hR
          exact hR.2 (same_pair_symm hsp)
      rw [hfind, hqe]
      rfl
  · intro bot_user conversations message hbot
    unfold on_message_route
    rw [if_pos hbot]
  · intro message conversation remote hpaused
    unfold handle_new_message_in_conversation
    dsimp only
    rw [if_pos (Or.inr hpaused)]

/-- C3: a follow-up from the starter of a non-paused session first appends
the user turn and then calls the remote client with the entire accumulated
history; if the call fails the appended user turn remains (no rollback) and
the formatted error is sent in place of an assistant turn; if it succeeds
exactly one assistant turn is appended after the user turn. -/
theorem handle_new_message_history_policy
    (message : InMsg) (conversation : Conversation) (remote : RemoteResult)
    (hauthor : some message.author = conversation.params.conversation_starter)
    (hpaused : conversation.params.paused = false) :
    ((handle_new_message_in_conversation message conversation remote).request.map
        ApiRequest.messages)
      = some (conversation.messages
          ++ [Turn.user (build_user_content message.content message.attachments)])
    ∧ (∀ e : ApiError, remote = Except.error e →
        (handle_new_message_in_conversation message conversation remote).conversation.messages
          = conversation.messages
            ++ [Turn.user (build_user_content message.content message.attachments)]
        ∧ (handle_new_message_in_conversation message conversation remote).reply
          = some (ReplyOut.errorReply
              { title := "Error",
                description :=
                  (if 4000 < (format_anthropic_error e).length then
                    (format_anthropic_error e).take 4000 ++ "\n\n... (error message truncated)"
                  else format_anthropic_error e).toList,
                color := Colour.red }))
    ∧ (∀ content : Option Text, remote = Except.ok content →
        (handle_new_message_in_conversation message conversation remote).conversation.messages
          = conversation.messages
            ++ [Turn.user (build_user_content message.content message.attachments),
                Turn.assistant (response_text_of content)]) := by
  have hguard : ¬(some message.author ≠ conversation.params.conversation_starter
      ∨ conversation.params.paused = true) := by
    rw [not_or]
    constructor
    · rw [not_not]
      exact hauthor
    · rw [hpaused]
      simp
  refine ⟨?_, ?_, ?_⟩
  · unfold handle_new_message_in_conversation
    dsimp only
    rw [if_neg hguard]
    cases remote <;> rfl
  · intro e he
    subst he
    unfold handle_new_message_in_conversation
    dsimp only
    rw [if_neg hguard]
    exact ⟨rfl, rfl⟩
  · intro content hc
    subst hc
    unfold handle_new_message_in_conversation
    dsimp only
    rw [if_neg hguard]
    dsimp only
    rw [List.append_assoc]
    rfl

/-- C4: the typing task never terminates on its own — after any number of
loop iterations it is still running, having emitted one typing signal per
iteration — upon cancellation it re-raises the cancellation as a clean stop,
and the handler that starts it cancels it on both the success exit and the
error exit of the completion call. -/
theorem keep_typing_lifecycle :
    (∀ n : Nat, (keep_typing_loop n).2 = none
      ∧ (keep_typing_loop n).1.count TypingEffect.typingSignal = n)
    ∧ (∀ n : Nat, (keep_typing_cancelled_run n).2 = TaskOutcome.reraisedCancelled)
    ∧ (∀ (message : InMsg) (conversation : Conversation) (remote : RemoteResult),
        (handle_new_message_in_conversation message conversation remote).typingStarted
          = true →
        (handle_new_message_in_conversation message conversation remote).typingCancelled
          = true) := by
  refine ⟨?_, ?_, ?_⟩
  · intro n
    induction n with
    | zero => simp [keep_typing_loop]
    | succ m ih =>
      simp only [keep_typing_loop, keep_typing_body]
      refine ⟨ih.1, ?_⟩
      rw [List.count_append, ih.2]
      have hone : List.count TypingEffect.typingSignal
          [TypingEffect.typingSignal, TypingEffect.sleepSeconds 5] = 1 := by decide
      rw [hone]
      omega
  · intro n
    rfl
  · intro message conversation remote h
    unfold handle_new_message_in_conversation at h ⊢
    dsimp only at h ⊢
    by_cases hguard : (some message.author ≠ conversation.params.conversation_starter
        ∨ conversation.params.paused = true)
    · rw [if_pos hguard] at h
      exact absurd h (by simp)
    · rw [if_neg hguard]
      cases remote <;> rfl

/-- A conversation, message and error used as concrete witnesses. -/
def demo_params : ChatCompletionParameters :=
  { model := "claude-opus-4-5-20251101", conversation_starter := some 1,
    conversation_id := some 10, channel_id := some 2 }

def demo_conversation : Conversation :=
  { params := demo_params,
    messages := [Turn.user [ContentBlock.text ['h', 'i']], Turn.assistant ['o', 'k']] }

def demo_paused_conversation : Conversation :=
  { params := { demo_params with paused := true }, messages := [] }

def demo_message : InMsg :=
  { author := 1, channel := 2, content := ['y', 'o'], attachments := [] }

def demo_error : ApiError :=
  { message := some "rate limited", status_code := some 429,
    type_name := "RateLimitError", str_repr := "rate limited" }

def demo_request : StartRequest :=
  { author := 1, channel := some 2, interaction_id := 10, prompt := ['h', 'i'],
    reply_message_id := 100 }

def demo_request2 : StartRequest :=
  { author := 1, channel := some 2, interaction_id := 11, prompt := ['y'],
    model := "claude-3-opus-20240229" }

def demo_store : Store :=
  (converse empty_store demo_request (Except.ok (some "ok".toList))).store

/-- C1 witness: after starting one conversation for user 1 in channel 2 from
the empty store, a second start for the same user and channel with a
different prompt and model is rejected with the duplicate-session error and
the store is unchanged; the populated store satisfies the pair invariant. -/
theorem converse_duplicate_rejected_and_pair_unique_witness :
    converse demo_store demo_request2 (Except.error demo_error) =
      { store := demo_store, outcome := StartOutcome.duplicateSession, request := none }
    ∧ StoreInv demo_store :=
  ⟨converse_duplicate_rejected_and_pair_unique.1 demo_store demo_request2
      (Except.error demo_error) 2 rfl (by decide),
   converse_duplicate_rejected_and_pair_unique.2 demo_store
     (Reachable.step empty_store demo_store Reachable.init
       (Step.start empty_store demo_request (Except.ok (some "ok".toList))))⟩

/-- C2 witness: the starter's follow-up in the session's channel is routed to
it, the same message authored by the bot identity is not routed, and the
paused session's handler does nothing. -/
theorem on_message_routing_correct_witness :
    on_message_route 99 [(10, demo_conversation)] demo_message = some 10
    ∧ on_message_route 1 [(10, demo_conversation)] demo_message = none
    ∧ handle_new_message_in_conversation demo_message demo_paused_conversation
        (Except.ok none)
      = { conversation := demo_paused_conversation, request := none,
          typingStarted := false, typingCancelled := false, reply := none } :=
  ⟨(on_message_routing_correct.1 99 [(10, demo_conversation)] demo_message 10
      demo_conversation (by simp) (by simp)).mpr (by decide),
   on_message_routing_correct.2.1 1 [(10, demo_conversation)] demo_message rfl,
   on_message_routing_correct.2.2 demo_message demo_paused_conversation
     (Except.ok none) rfl⟩

/-- C3 witness: at a concrete failing remote call the request carries the
appended history and the user turn survives the failure. -/
theorem handle_new_message_history_policy_witness :
    ((handle_new_message_in_conversation demo_message demo_conversation
        (Except.error demo_error)).request.map ApiRequest.messages)
      = some (demo_conversation.messages
          ++ [Turn.user (build_user_content demo_message.content demo_message.attachments)])
    ∧ (handle_new_message_in_conversation demo_message demo_conversation
        (Except.error demo_error)).conversation.messages
      = demo_conversation.messages
          ++ [Turn.user (build_user_content demo_message.content demo_message.attachments)] :=
  ⟨(handle_new_message_history_policy demo_message demo_conversation
      (Except.error demo_error) (by decide) (by decide)).1,
   ((handle_new_message_history_policy demo_message demo_conversation
      (Except.error demo_error) (by decide) (by decide)).2.1 demo_error rfl).1⟩

/-- C4 witness: after three iterations the loop is still running having
emitted three signals, a cancelled run re-raises the cancellation, and a
handler run that started the typing task cancelled it. -/
theorem keep_typing_lifecycle_witness :
    (keep_typing_loop 3).2 = none
    ∧ (keep_typing_cancelled_run 3).2 = TaskOutcome.reraisedCancelled
    ∧ (handle_new_message_in_conversation demo_message demo_conversation
        (Except.ok none)).typingCancelled = true :=
  ⟨(keep_typing_lifecycle.1 3).1, keep_typing_lifecycle.2.1 3,
   keep_typing_lifecycle.2.2 demo_message demo_conversation (Except.ok none) (by decide)⟩

end DiscordClaude
